import Mathlib

/-!
Shallow embedding of the reactive core of the repository (a Vue-2-style
observer system): `src/core/observer/dep.js`, `src/core/observer/index.js`,
`src/core/observer/array.js`, `src/core/observer/scheduler.js`,
`src/core/observer/watcher.js`, `src/core/util/lang.js` and the lifecycle
`callHook` helper.  JavaScript machine state is made explicit: the module
level mutable variables of each file become fields of a state structure and
each function becomes a state transformer.  The embedding fixes the
development build (`process.env.NODE_ENV !== 'production'`), which is the
configuration the specification describes (the circular-update counter and
the synchronous-flush escape hatch only exist there).
-/

namespace VueCore

/-- Development build flag: `process.env.NODE_ENV !== 'production'` is true
in the modelled configuration. -/
def devMode : Bool := true

/-! ## JavaScript values for strict equality (`===`)

`reactiveSetter` in `src/core/observer/index.js` compares the incoming and
stored value with `===` and with the NaN self-inequality idiom
`newVal !== newVal && value !== value`.  Objects compare by reference, so an
object is represented by a numeric reference. -/

inductive SVal where
  | undef
  | vnull
  | vbool (b : Bool)
  | vnan
  | vint (n : Int)
  | vstr (s : String)
  | vref (r : Nat)
deriving DecidableEq, Repr

/-- JavaScript strict equality `===` on `SVal`: value equality on
primitives, reference equality on objects, and `NaN === x` false for
every `x` (including NaN itself). -/
def strictEq : SVal → SVal → Bool
  | SVal.undef, SVal.undef => true
  | SVal.vnull, SVal.vnull => true
  | SVal.vbool a, SVal.vbool b => a == b
  | SVal.vint a, SVal.vint b => a == b
  | SVal.vstr a, SVal.vstr b => a == b
  | SVal.vref a, SVal.vref b => a == b
  | _, _ => false

/-! ## `Dep` and the target stack (`src/core/observer/dep.js`)

A `Dep` is represented by its numeric `id`; its `subs` array is the list of
subscriber watcher ids in insertion order.  `Dep.target` together with
`targetStack` is modelled as a Lean list whose head is the top of the
stack; `Dep.target` is the head (or `none` when the stack is empty, the
JavaScript `undefined`). -/

/-- `pushTarget(target)`: push the (possibly absent) watcher onto the
target stack and make it `Dep.target`. -/
def pushTarget (target : Option Nat) (stack : List (Option Nat)) :
    List (Option Nat) :=
  target :: stack

/-- `popTarget()`: pop the stack; `Dep.target` becomes the element now on
top (JavaScript `targetStack[targetStack.length - 1]`, `undefined` when
empty). -/
def popTarget (stack : List (Option Nat)) : List (Option Nat) :=
  stack.tail

/-- `Dep.target`: the top of the target stack, `none` when the stack is
empty. -/
def currentTarget (stack : List (Option Nat)) : Option Nat :=
  (stack.headD none)

/-- `Dep.prototype.notify`: snapshot `this.subs` (`slice()`), sort the
snapshot by ascending watcher id when the build is non-production and
`config.async` is false, then call `update()` on each element in order.
The returned list is the sequence of watcher ids whose `update()` is
invoked, in invocation order.  The JavaScript engine sort with comparator
`(a, b) => a.id - b.id` is modelled as a stable insertion sort on ids. -/
def depNotify (async : Bool) (subs : List Nat) : List Nat :=
  let snapshot := subs
  if devMode ∧ ¬ async then
    snapshot.insertionSort (· ≤ ·)
  else
    snapshot

/-! ## `defineReactive`'s setter (`src/core/observer/index.js`, lines
168-187)

The common case of a data property (no pre-existing getter/setter pair) is
modelled: the closed-over `val` is the stored value.  The result is the
new stored value paired with whether `dep.notify()` was called. -/

/-- `reactiveSetter(newVal)` for a plain data property: read the current
value, return unchanged without notifying when `newVal === value` or when
both are NaN (`newVal !== newVal && value !== value`); otherwise store the
new value and call `dep.notify()`. -/
def reactiveSetter (val newVal : SVal) : SVal × Bool :=
  let value := val
  if strictEq newVal value ∨ (¬ strictEq newVal newVal ∧ ¬ strictEq value value) then
    (val, false)
  else
    (newVal, true)

/-- The watcher ids that receive `update()` from one assignment to a
reactive property whose dep has subscriber list `subs`: the setter either
calls `dep.notify()` once or not at all. -/
def setterNotifications (async : Bool) (subs : List Nat)
    (val newVal : SVal) : List Nat :=
  if (reactiveSetter val newVal).2 then depNotify async subs else []

/-! ## Watcher dependency bookkeeping (`watcher.js`, in `src/unnamed/part_003`)

A watcher's four dependency containers — `deps`, `newDeps` (arrays of Dep
objects, here their ids in insertion order) and `depIds`, `newDepIds`
(JavaScript `Set`s of ids, here lists without duplicates, `add` appending)
— plus the subscriber lists of every dep.  `subs d` is dep `d`'s `subs`
array as a list of watcher ids in insertion order. -/

structure WatcherDeps where
  deps : List Nat
  newDeps : List Nat
  depIds : List Nat
  newDepIds : List Nat
deriving Repr

/-- State shared between one watcher and all deps: the watcher's
containers and every dep's subscriber list. -/
structure TrackSt where
  w : WatcherDeps
  subs : Nat → List Nat

/-- `Dep.prototype.addSub(sub)`: push the watcher onto the dep's `subs`
array. -/
def addSub (subs : Nat → List Nat) (d wid : Nat) : Nat → List Nat :=
  fun x => if x = d then subs d ++ [wid] else subs x

/-- `Dep.prototype.removeSub(sub)`: `remove(this.subs, sub)`.
Modelled from the spec: the helper `remove` lives in `shared/util`, which
is not under `src/`; per the repository's util contract it splices out the
first occurrence of the item (`indexOf` + `splice`), here `List.erase`. -/
def removeSub (subs : Nat → List Nat) (d wid : Nat) : Nat → List Nat :=
  fun x => if x = d then (subs d).erase wid else subs x

/-- `Watcher.prototype.addDep(dep)`: if the dep's id is not yet in
`newDepIds`, record it in `newDepIds` and `newDeps`, and subscribe the
watcher to the dep only when the id is also absent from the previous
cycle's `depIds`. -/
def addDep (wid : Nat) (s : TrackSt) (d : Nat) : TrackSt :=
  if d ∈ s.w.newDepIds then s
  else
    let w' := { s.w with
      newDepIds := s.w.newDepIds ++ [d]
      newDeps := s.w.newDeps ++ [d] }
    if d ∈ s.w.depIds then
      { s with w := w' }
    else
      { w := w', subs := addSub s.subs d wid }

/-- `Watcher.prototype.cleanupDeps()`: walk `deps` from the last element
to the first, unsubscribing from every dep whose id is not in `newDepIds`;
then swap `depIds ← newDepIds` and `deps ← newDeps`, clearing the pending
containers. -/
def cleanupDeps (wid : Nat) (s : TrackSt) : TrackSt :=
  let subs' := s.w.deps.reverse.foldl
    (fun acc d => if d ∈ s.w.newDepIds then acc else removeSub acc d wid)
    s.subs
  { w := { deps := s.w.newDeps, newDeps := []
           depIds := s.w.newDepIds, newDepIds := [] }
    subs := subs' }

/-- One evaluation cycle of a watcher as seen by the dependency
bookkeeping: the getter reads the deps in `reads` in order (each read
calls `dep.depend()`, hence `addDep` with this watcher as `Dep.target`),
and `get()`'s `finally` block then runs `cleanupDeps`. -/
def evalRun (wid : Nat) (reads : List Nat) (s : TrackSt) : TrackSt :=
  cleanupDeps wid (reads.foldl (addDep wid) s)

/-- The invariant a watcher's bookkeeping satisfies between evaluations:
the pending containers are empty, `deps` mirrors `depIds` (both were
filled from the same pending pair), the ids are duplicate-free, and the
watcher sits in a dep's subscriber list exactly once when the dep is in
`depIds` and not at all otherwise. -/
def WfTrack (wid : Nat) (s : TrackSt) : Prop :=
  s.w.newDeps = [] ∧ s.w.newDepIds = [] ∧
  s.w.deps = s.w.depIds ∧ s.w.depIds.Nodup ∧
  ∀ d, (s.subs d).count wid = if d ∈ s.w.depIds then 1 else 0

/-- A freshly constructed watcher: no dependencies, subscribed nowhere. -/
def freshTrack : TrackSt :=
  { w := { deps := [], newDeps := [], depIds := [], newDepIds := [] }
    subs := fun _ => [] }

/-! ## `Watcher.prototype.get()` (`watcher.js`) with its error paths

`get()` pushes the watcher onto the target stack, runs the getter inside
`try`, catches getter exceptions (re-reporting them through `handleError`
for user watchers, rethrowing otherwise), and in `finally` pops the stack
and reconciles the dependency sets.  The getter is summarised by the dep
reads it performs before finishing and by its outcome: a value, or a
thrown error (an error code).  `deep` traversal is not modelled (the
watchers considered have `deep = false`). -/

structure RunCtx where
  track : TrackSt
  stack : List (Option Nat)
  handled : List Nat

/-- `Watcher.prototype.get()`: push self as `Dep.target`; perform the
getter's reads; on a thrown error, a user watcher reports it via
`handleError` and the evaluation yields `undefined`, a non-user watcher
rethrows; in `finally`, pop the target stack and run `cleanupDeps`. -/
def watcherGet (wid : Nat) (user : Bool) (reads : List Nat)
    (outcome : Except Nat SVal) (ctx : RunCtx) : Except Nat SVal × RunCtx :=
  let ctx1 : RunCtx := { ctx with stack := pushTarget (some wid) ctx.stack }
  let ctx2 : RunCtx := { ctx1 with track := reads.foldl (addDep wid) ctx1.track }
  let step : Except Nat SVal × RunCtx :=
    match outcome with
    | Except.ok v => (Except.ok v, ctx2)
    | Except.error e =>
      if user then
        (Except.ok SVal.undef, { ctx2 with handled := ctx2.handled ++ [e] })
      else
        (Except.error e, ctx2)
  let ctx3 : RunCtx := { step.2 with stack := popTarget step.2.stack }
  (step.1, { ctx3 with track := cleanupDeps wid ctx3.track })

/-- `Dep.prototype.depend()`: if `Dep.target` is set, have the target
watcher record this dep via `addDep`; with no current reader this is a
no-op. -/
def depDepend (target : Option Nat) (s : TrackSt) (d : Nat) : TrackSt :=
  match target with
  | some wid => addDep wid s d
  | none => s

/-! ## `parsePath` (`src/core/util/lang.js`) and the watcher's getter
fallback

`bailRE` is built from `unicodeRegExp.source` plus `.`, `$`, `_` and
`\d`; it matches any character outside that class.  `isPathChar` is the
character class, range for range. -/

/-- Membership of a code point in a closed range. -/
def inRange (n lo hi : Nat) : Bool := decide (lo ≤ n) && decide (n ≤ hi)

/-- The characters `bailRE` accepts in a path: `a-zA-Z`, the
`unicodeRegExp` ranges, `.`, `$`, `_` and digits. -/
def isPathChar (c : Char) : Bool :=
  let n := c.toNat
  inRange n 0x61 0x7A || inRange n 0x41 0x5A || decide (n = 0xB7) ||
  inRange n 0xC0 0xD6 || inRange n 0xD8 0xF6 || inRange n 0xF8 0x37D ||
  inRange n 0x37F 0x1FFF || inRange n 0x200C 0x200D ||
  inRange n 0x203F 0x2040 || inRange n 0x2070 0x218F ||
  inRange n 0x2C00 0x2FEF || inRange n 0x3001 0xD7FF ||
  inRange n 0xF900 0xFDCF || inRange n 0xFDF0 0xFFFD ||
  decide (n = 0x2E) || decide (n = 0x24) || decide (n = 0x5F) ||
  inRange n 0x30 0x39

/-- `parsePath(path)`: `undefined` when `bailRE.test(path)` (some character
falls outside the allowed class), otherwise the getter closure over
`path.split('.')`, represented by the list of segments. -/
def parsePath (path : String) : Option (List String) :=
  if path.toList.any (fun c => ! isPathChar c) then none
  else some (path.splitOn ".")

/-- Values as seen by the path getter: `undefined`, a primitive carrying
its JavaScript truthiness, or an object with string-keyed fields. -/
inductive PathVal where
  | undef
  | atom (truthy : Bool)
  | pobj (fields : List (String × PathVal))
deriving Repr

/-- JavaScript `!obj` on a `PathVal`. -/
def isFalsy : PathVal → Bool
  | PathVal.undef => true
  | PathVal.atom t => !t
  | PathVal.pobj _ => false

/-- JavaScript property read `obj[segment]`: an absent key, or a read on a
non-object, yields `undefined`. -/
def getField : PathVal → String → PathVal
  | PathVal.pobj fields, s => (fields.lookup s).getD PathVal.undef
  | _, _ => PathVal.undef

/-- The closure `parsePath` returns: for every segment, bail out with
`undefined` when the current value is falsy (`if (!obj) return`),
otherwise move to `obj[segment]`. -/
def pathWalk : PathVal → List String → PathVal
  | v, [] => v
  | v, s :: rest => if isFalsy v then PathVal.undef else pathWalk (getField v s) rest

/-- The no-op getter `noop` substituted by the `Watcher` constructor. -/
def noopGetter : PathVal → PathVal := fun _ => PathVal.undef

/-- The string branch of the `Watcher` constructor: `this.getter =
parsePath(expOrFn)`, falling back to `noop` (with a development-mode
warning, the returned flag) when `parsePath` yields `undefined`. -/
def watcherPathGetter (path : String) : (PathVal → PathVal) × Bool :=
  match parsePath path with
  | some segs => (fun v => pathWalk v segs, false)
  | none => (noopGetter, devMode)

/-! ## `observe` (`src/core/observer/index.js`, lines 105-125)

A candidate value is either a non-object (primitive, `null`, function) or
an object carrying: its kind (plain object, array, other object, VNode
instance), its `__ob__` own property (absent, a genuine `Observer`
identified by id, or some non-Observer value), its extensibility, and its
`_isVue` mark.  `new Observer(value)` is modelled by stamping a fresh
observer id into `__ob__` (`def(value, '__ob__', this)`). -/

inductive ObjKind where
  | plainK | arrayK | otherK | vnodeK
deriving DecidableEq, Repr

inductive ObField where
  | absent | observerF (id : Nat) | nonObserverF
deriving DecidableEq, Repr

structure RawObject where
  kind : ObjKind
  obField : ObField
  extensible : Bool
  isVue : Bool
deriving DecidableEq, Repr

inductive JsValue where
  | primV
  | objV (o : RawObject)
deriving DecidableEq, Repr

/-- `observe(value)`: return `undefined` for non-objects and VNode
instances; return the existing observer when the value has an own `__ob__`
holding an `Observer`; otherwise create a new `Observer` (stamping
`__ob__` with the fresh id `newId`) when `shouldObserve` holds, not
server-rendering, the value is an array or plain object, extensible, and
not `_isVue`.  The result pairs the returned observer id (or `none` for
`undefined`) with the possibly restamped value. -/
def observeM (shouldObs ssr : Bool) (newId : Nat) (v : JsValue) :
    Option Nat × JsValue :=
  match v with
  | JsValue.primV => (none, v)
  | JsValue.objV o =>
    if o.kind = ObjKind.vnodeK then (none, v)
    else
      match o.obField with
      | ObField.observerF i => (some i, v)
      | _ =>
        if shouldObs ∧ ¬ ssr ∧ (o.kind = ObjKind.arrayK ∨ o.kind = ObjKind.plainK)
            ∧ o.extensible ∧ ¬ o.isVue then
          (some newId, JsValue.objV { o with obField := ObField.observerF newId })
        else
          (none, v)

/-! ## Patched array methods (`src/core/observer/array.js`)

State of one observed array: its elements, the log of elements passed to
`ob.observeArray` (in order), and the number of `ob.dep.notify()` calls.
Each patched method is the source `mutator` instantiated at one of the
seven method names: run the original `Array.prototype` method, compute
`inserted` by the `switch`, observe the inserted elements, notify once,
and return the original's result. -/

structure ObSt (α : Type) where
  elems : List α
  observedLog : List α
  notifies : Nat
deriving Repr

/-- Result value of an original `Array.prototype` method: the new length
(`push`/`unshift`), a removed element or `undefined` (`pop`/`shift`), or
an array (`splice`'s removed elements; `sort`/`reverse` return the array
itself). -/
inductive ArrRes (α : Type) where
  | rnum (n : Nat)
  | relem (x : Option α)
  | rarr (xs : List α)
deriving Repr

/-- Original `Array.prototype.push(...args)`: append, return the new
length. -/
def origPush {α : Type} (xs args : List α) : List α × ArrRes α :=
  (xs ++ args, ArrRes.rnum (xs ++ args).length)

/-- Original `Array.prototype.pop()`: drop and return the last element
(`undefined` on empty). -/
def origPop {α : Type} (xs : List α) : List α × ArrRes α :=
  (xs.dropLast, ArrRes.relem xs.getLast?)

/-- Original `Array.prototype.shift()`: drop and return the first element
(`undefined` on empty). -/
def origShift {α : Type} (xs : List α) : List α × ArrRes α :=
  (xs.tail, ArrRes.relem xs.head?)

/-- Original `Array.prototype.unshift(...args)`: prepend, return the new
length. -/
def origUnshift {α : Type} (xs args : List α) : List α × ArrRes α :=
  (args ++ xs, ArrRes.rnum (args ++ xs).length)

/-- Original `Array.prototype.splice(start, deleteCount, ...items)`:
clamp `start` and `deleteCount` as the ECMAScript algorithm does, replace
the selected slice by `items`, return the removed slice. -/
def origSplice {α : Type} (xs : List α) (start delCnt : Int)
    (items : List α) : List α × ArrRes α :=
  let len : Int := xs.length
  let actualStart : Nat := (if start < 0 then max (len + start) 0 else min start len).toNat
  let actualDel : Nat := (min (max delCnt 0) (len - actualStart)).toNat
  (xs.take actualStart ++ items ++ xs.drop (actualStart + actualDel),
   ArrRes.rarr ((xs.drop actualStart).take actualDel))

/-- Original `Array.prototype.sort(...)`: the native in-place sort (with
whatever comparator was passed) is abstracted as the function `sortFn`;
returns the array itself. -/
def origSort {α : Type} (sortFn : List α → List α) (xs : List α) :
    List α × ArrRes α :=
  (sortFn xs, ArrRes.rarr (sortFn xs))

/-- Original `Array.prototype.reverse()`: reverse in place, return the
array itself. -/
def origReverse {α : Type} (xs : List α) : List α × ArrRes α :=
  (xs.reverse, ArrRes.rarr xs.reverse)

/-- The body of `mutator`: run the original method, compute `inserted`
(supplied by the per-method `switch` below), run
`ob.observeArray(inserted)` when `inserted` is set, call
`ob.dep.notify()` once, and return the original's result. -/
def mutatorRun {α : Type} (s : ObSt α) (original : List α → List α × ArrRes α)
    (inserted : Option (List α)) : ObSt α × ArrRes α :=
  let r := original s.elems
  let s1 : ObSt α := { s with elems := r.1 }
  let s2 : ObSt α :=
    match inserted with
    | some ins => { s1 with observedLog := s1.observedLog ++ ins }
    | none => s1
  ({ s2 with notifies := s2.notifies + 1 }, r.2)

/-- Patched `push(...args)`: `inserted = args`. -/
def pushM {α : Type} (s : ObSt α) (args : List α) : ObSt α × ArrRes α :=
  mutatorRun s (fun xs => origPush xs args) (some args)

/-- Patched `pop()`: nothing inserted. -/
def popM {α : Type} (s : ObSt α) : ObSt α × ArrRes α :=
  mutatorRun s origPop none

/-- Patched `shift()`: nothing inserted. -/
def shiftM {α : Type} (s : ObSt α) : ObSt α × ArrRes α :=
  mutatorRun s origShift none

/-- Patched `unshift(...args)`: `inserted = args`. -/
def unshiftM {α : Type} (s : ObSt α) (args : List α) : ObSt α × ArrRes α :=
  mutatorRun s (fun xs => origUnshift xs args) (some args)

/-- Patched `splice(start, deleteCount, ...items)`:
`inserted = args.slice(2) = items`. -/
def spliceM {α : Type} (s : ObSt α) (start delCnt : Int) (items : List α) :
    ObSt α × ArrRes α :=
  mutatorRun s (fun xs => origSplice xs start delCnt items) (some items)

/-- Patched `sort(...)`: nothing inserted. -/
def sortM {α : Type} (s : ObSt α) (sortFn : List α → List α) :
    ObSt α × ArrRes α :=
  mutatorRun s (origSort sortFn) none

/-- Patched `reverse()`: nothing inserted. -/
def reverseM {α : Type} (s : ObSt α) : ObSt α × ArrRes α :=
  mutatorRun s origReverse none

/-! ## Scheduler (`src/core/observer/scheduler.js`)

Module state of `scheduler.js` plus two instrumentation fields: `runs`,
the ids passed to `watcher.run()` in execution order, and `warned` /
`fuelOut`, recording respectively that the infinite-update warning fired
(the `break`) and that the Lean fuel ran out with iterations pending (the
JavaScript loop has no such bound; every theorem below asserts
`fuelOut = false`, i.e. the chosen fuel was not the reason the loop
stopped).  A watcher's `run()` re-evaluates its getter; the writes it
performs are summarised by `effect : Nat → List Nat`, the watcher ids it
hands to `queueWatcher` (one per notified subscription), in order.  The
modelled configuration is the development build with `config.async = true`
(batched mode), so `queueWatcher` never flushes synchronously; the
`nextTick(flushSchedulerQueue)` callback is applied as a separate step. -/

def MAX_UPDATE_COUNT : Nat := 100

structure SchedSt where
  queue : List Nat
  hasQ : Nat → Bool
  circular : Nat → Nat
  flushing : Bool
  waiting : Bool
  index : Nat
  runs : List Nat
  warned : Bool
  fuelOut : Bool

/-- The idle scheduler: empty queue, no pending flags, counters zero. -/
def idleSched : SchedSt :=
  { queue := [], hasQ := fun _ => false, circular := fun _ => 0
    flushing := false, waiting := false, index := 0
    runs := [], warned := false, fuelOut := false }

/-- The `while (i > index && queue[i].id > watcher.id) i--` descent of
`queueWatcher`, phrased on the distance `k = i - index`: returns the final
distance.  (`queue` is never empty while flushing, so the JavaScript
`length - 1 = -1` corner does not arise.) -/
def qwDescend (queue : List Nat) (index wid : Nat) : Nat → Nat
  | 0 => 0
  | k + 1 =>
    if queue.getD (index + k + 1) 0 > wid then qwDescend queue index wid k
    else k + 1

/-- `queueWatcher(watcher)`: skip if the id is flagged pending; otherwise
flag it and either push to the queue (not flushing) or splice it in just
past the greater-id suffix, but never at or before the cursor (flushing).
Finally mark `waiting` (the scheduled flush callback is modelled
separately). -/
def queueWatcherM (s : SchedSt) (wid : Nat) : SchedSt :=
  if s.hasQ wid then s
  else
    let s1 : SchedSt := { s with hasQ := fun x => if x = wid then true else s.hasQ x }
    let s2 : SchedSt :=
      if ¬ s1.flushing then { s1 with queue := s1.queue ++ [wid] }
      else
        let pos := s1.index + qwDescend s1.queue s1.index wid (s1.queue.length - 1 - s1.index) + 1
        { s1 with queue := s1.queue.take pos ++ wid :: s1.queue.drop pos }
    if ¬ s2.waiting then { s2 with waiting := true } else s2

/-- The `for (index = 0; index < queue.length; index++)` loop of
`flushSchedulerQueue` (development build): fetch `queue[index]`, clear its
pending flag, run it (recording the run and applying its `queueWatcher`
effects), then the circular-update check — increment `circular[id]` when
the watcher got itself re-flagged, and `break` with a warning once the
counter exceeds `MAX_UPDATE_COUNT`. -/
def flushLoop (effect : Nat → List Nat) : Nat → SchedSt → SchedSt
  | 0, s => if s.index < s.queue.length then { s with fuelOut := true } else s
  | fuel + 1, s =>
    if s.index < s.queue.length then
      let wid := s.queue.getD s.index 0
      let s1 : SchedSt := { s with hasQ := fun x => if x = wid then false else s.hasQ x }
      let s2 : SchedSt := (effect wid).foldl queueWatcherM { s1 with runs := s1.runs ++ [wid] }
      if devMode ∧ s2.hasQ wid then
        let c := s2.circular wid + 1
        let s3 : SchedSt := { s2 with circular := fun x => if x = wid then c else s2.circular x }
        if c > MAX_UPDATE_COUNT then
          { s3 with warned := true }
        else
          flushLoop effect fuel { s3 with index := s3.index + 1 }
      else
        flushLoop effect fuel { s2 with index := s2.index + 1 }
    else
      s

/-- `flushSchedulerQueue()` up to its queue loop: set `flushing`, start
the cursor at 0 (the `queue.sort` step is a no-op in the single-watcher
and already-sorted scenarios proved below and keeps the queue a
permutation otherwise), and run the loop. -/
def flushSchedulerQueue (effect : Nat → List Nat) (fuel : Nat) (s : SchedSt) :
    SchedSt :=
  flushLoop effect fuel { s with flushing := true, index := 0 }

/-! ## `callHook` (`src/core/instance/lifecycle.js`, in
`src/unnamed/part_007`)

`callHook(vm, hook)` wraps the handler invocations in `pushTarget()` /
`popTarget()`.  A handler's interaction with the reactive system is
summarised by the dep ids it reads; each read reaches `dep.depend()`,
which consults the current `Dep.target`. -/

/-- `callHook`: push the empty target (`pushTarget()` with no argument),
run every handler (their reactive reads call `dep.depend()` under the
current target), pop the target.  Returns the dependency-tracking state
and the target stack after the call. -/
def callHookM (reads : List Nat) (st : TrackSt) (stack : List (Option Nat)) :
    TrackSt × List (Option Nat) :=
  let stack1 := pushTarget none stack
  let st1 := reads.foldl (fun acc d => depDepend (currentTarget stack1) acc d) st
  (st1, popTarget stack1)

/-! ## Theorems -/

/-- A fold whose step ignores the list element is the identity. -/
theorem foldl_fixed_point {α β : Type} (l : List α) (b : β) :
    l.foldl (fun acc _ => acc) b = b := by
  induction l generalizing b with
  | nil => rfl
  | cons x t ih => simp only [List.foldl_cons]; exact ih b

/-- One `addDep` step preserves the mid-evaluation invariant: `prev` is
the set of dep ids read so far in this evaluation. -/
theorem addDep_step (wid d : Nat) (s : TrackSt) (prev : List Nat)
    (h1 : ∀ x, x ∈ s.w.newDepIds ↔ x ∈ prev)
    (h2 : s.w.newDepIds.Nodup)
    (h3 : s.w.newDeps = s.w.newDepIds)
    (h4 : ∀ x, (s.subs x).count wid =
      if x ∈ s.w.depIds ∨ x ∈ prev then 1 else 0) :
    (addDep wid s d).w.depIds = s.w.depIds ∧
    (addDep wid s d).w.deps = s.w.deps ∧
    (∀ x, x ∈ (addDep wid s d).w.newDepIds ↔ (x ∈ prev ∨ x = d)) ∧
    (addDep wid s d).w.newDepIds.Nodup ∧
    (addDep wid s d).w.newDeps = (addDep wid s d).w.newDepIds ∧
    (∀ x, ((addDep wid s d).subs x).count wid =
      if x ∈ s.w.depIds ∨ (x ∈ prev ∨ x = d) then 1 else 0) := by
  by_cases hmem : d ∈ s.w.newDepIds
  · have hdprev : d ∈ prev := (h1 d).mp hmem
    have hstep : addDep wid s d = s := by
      simp [addDep, hmem]
    rw [hstep]
    refine ⟨rfl, rfl, ?_, h2, h3, ?_⟩
    · intro x
      rw [h1 x]
      constructor
      · exact fun hx => Or.inl hx
      · rintro (hx | rfl)
        · exact hx
        · exact hdprev
    · intro x
      rw [h4 x]
      by_cases hx : x ∈ s.w.depIds ∨ x ∈ prev
      · rw [if_pos hx, if_pos
          (by rcases hx with h | h; exacts [Or.inl h, Or.inr (Or.inl h)])]
      · rw [if_neg hx, if_neg]
        rintro (hh | hh | rfl)
        · exact hx (Or.inl hh)
        · exact hx (Or.inr hh)
        · exact hx (Or.inr hdprev)
  · have hdprev : d ∉ prev := fun hc => hmem ((h1 d).mpr hc)
    by_cases hdep : d ∈ s.w.depIds
    · have hstep : addDep wid s d =
        { w := { deps := s.w.deps
                 newDeps := s.w.newDeps ++ [d]
                 depIds := s.w.depIds
                 newDepIds := s.w.newDepIds ++ [d] }
          subs := s.subs } := by
        simp [addDep, hmem, hdep]
      rw [hstep]
      refine ⟨rfl, rfl, ?_, ?_, ?_, ?_⟩
      · intro x
        simp only [List.mem_append, List.mem_singleton, h1 x]
      · simp [List.nodup_append, h2, hmem]
      · rw [h3]
      · intro x
        rw [h4 x]
        by_cases hx : x ∈ s.w.depIds ∨ x ∈ prev
        · rw [if_pos hx, if_pos
            (by rcases hx with h | h; exacts [Or.inl h, Or.inr (Or.inl h)])]
        · rw [if_neg hx, if_neg]
          rintro (hh | hh | rfl)
          · exact hx (Or.inl hh)
          · exact hx (Or.inr hh)
          · exact hx (Or.inl hdep)
    · have hstep : addDep wid s d =
        { w := { deps := s.w.deps
                 newDeps := s.w.newDeps ++ [d]
                 depIds := s.w.depIds
                 newDepIds := s.w.newDepIds ++ [d] }
          subs := addSub s.subs d wid } := by
        simp [addDep, hmem, hdep]
      rw [hstep]
      refine ⟨rfl, rfl, ?_, ?_, ?_, ?_⟩
      · intro x
        simp only [List.mem_append, List.mem_singleton, h1 x]
      · simp [List.nodup_append, h2, hmem]
      · rw [h3]
      · intro x
        by_cases hxd : x = d
        · subst hxd
          have hz : (s.subs x).count wid = 0 := by
            rw [h4 x, if_neg]
            rintro (h | h)
            · exact hdep h
            · exact hdprev h
          simp [addSub, hz]
        · simp only [addSub, if_neg hxd]
          rw [h4 x]
          by_cases hx : x ∈ s.w.depIds ∨ x ∈ prev
          · rw [if_pos hx, if_pos
              (by rcases hx with h | h; exacts [Or.inl h, Or.inr (Or.inl h)])]
          · rw [if_neg hx, if_neg]
            rintro (hh | hh | rfl)
            · exact hx (Or.inl hh)
            · exact hx (Or.inr hh)
            · exact hxd rfl

/-- Folding `addDep` over the reads of one evaluation: `depIds`/`deps`
stay those of the previous cycle, `newDepIds`/`newDeps` collect exactly
the ids read, and the watcher is subscribed exactly once to each dep that
is in the previous set or was read. -/
theorem addDep_fold (wid : Nat) (reads : List Nat) :
    ∀ (s : TrackSt) (prev : List Nat),
    (∀ x, x ∈ s.w.newDepIds ↔ x ∈ prev) →
    s.w.newDepIds.Nodup →
    s.w.newDeps = s.w.newDepIds →
    (∀ x, (s.subs x).count wid =
      if x ∈ s.w.depIds ∨ x ∈ prev then 1 else 0) →
    ((reads.foldl (addDep wid) s).w.depIds = s.w.depIds ∧
     (reads.foldl (addDep wid) s).w.deps = s.w.deps ∧
     (∀ x, x ∈ (reads.foldl (addDep wid) s).w.newDepIds ↔
       (x ∈ prev ∨ x ∈ reads)) ∧
     (reads.foldl (addDep wid) s).w.newDepIds.Nodup ∧
     (reads.foldl (addDep wid) s).w.newDeps =
       (reads.foldl (addDep wid) s).w.newDepIds ∧
     (∀ x, ((reads.foldl (addDep wid) s).subs x).count wid =
       if x ∈ s.w.depIds ∨ x ∈ prev ∨ x ∈ reads then 1 else 0)) := by
  induction reads with
  | nil =>
    intro s prev h1 h2 h3 h4
    simp only [List.foldl_nil]
    refine ⟨trivial, trivial, ?_, h2, h3, ?_⟩
    · intro x
      simp [h1 x]
    · intro x
      rw [h4 x]
      simp
  | cons d rest ih =>
    intro s prev h1 h2 h3 h4
    obtain ⟨e1, e2, e3, e4, e5, e6⟩ := addDep_step wid d s prev h1 h2 h3 h4
    simp only [List.foldl_cons]
    obtain ⟨f1, f2, f3, f4, f5, f6⟩ :=
      ih (addDep wid s d) (prev ++ [d])
        (fun x => by rw [e3 x]; simp)
        e4 e5
        (fun x => by rw [e6 x, ← e1]; simp)
    refine ⟨by rw [f1, e1], by rw [f2, e2], ?_, f4, f5, ?_⟩
    · intro x
      rw [f3 x]
      simp [or_assoc]
    · intro x
      rw [f6 x, e1]
      simp [or_assoc]

/-- Pointwise value of the unsubscription fold of `cleanupDeps`: a dep
gets the watcher erased exactly when it was in the walked list and is not
among the freshly read ids. -/
theorem removeFold_eval (wid : Nat) (newIds : List Nat) :
    ∀ (l : List Nat) (subs : Nat → List Nat), l.Nodup →
    ∀ x, (l.foldl
        (fun acc d => if d ∈ newIds then acc else removeSub acc d wid)
        subs) x =
      if x ∈ l ∧ x ∉ newIds then (subs x).erase wid else subs x := by
  intro l
  induction l with
  | nil =>
    intro subs _ x
    simp
  | cons a t ih =>
    intro subs hnd x
    have hnd_t : t.Nodup := hnd.of_cons
    have ha : a ∉ t := (List.nodup_cons.mp hnd).1
    simp only [List.foldl_cons]
    rw [ih _ hnd_t x]
    by_cases han : a ∈ newIds
    · rw [if_pos han]
      by_cases hx : x ∈ t ∧ x ∉ newIds
      · rw [if_pos hx, if_pos ⟨List.mem_cons_of_mem a hx.1, hx.2⟩]
      · rw [if_neg hx, if_neg]
        rintro ⟨hmem, hnin⟩
        rcases List.mem_cons.mp hmem with rfl | hmem2
        · exact hnin han
        · exact hx ⟨hmem2, hnin⟩
    · rw [if_neg han]
      by_cases hxa : x = a
      · subst hxa
        simp [removeSub, ha, han]
      · simp only [removeSub, if_neg hxa]
        by_cases hx : x ∈ t ∧ x ∉ newIds
        · rw [if_pos hx, if_pos ⟨List.mem_cons_of_mem a hx.1, hx.2⟩]
        · rw [if_neg hx, if_neg]
          rintro ⟨hmem, hnin⟩
          rcases List.mem_cons.mp hmem with rfl | hmem2
          · exact hxa rfl
          · exact hx ⟨hmem2, hnin⟩

/-- The subscriber lists after `cleanupDeps`: the watcher is erased from
exactly the deps of the previous cycle that were not read again. -/
theorem cleanupDeps_subs (wid : Nat) (t : TrackSt) (hnd : t.w.deps.Nodup)
    (x : Nat) :
    (cleanupDeps wid t).subs x =
      if x ∈ t.w.deps ∧ x ∉ t.w.newDepIds then (t.subs x).erase wid
      else t.subs x := by
  have hsubs : (cleanupDeps wid t).subs x =
      (t.w.deps.reverse.foldl
        (fun acc d => if d ∈ t.w.newDepIds then acc else removeSub acc d wid)
        t.subs) x := rfl
  rw [hsubs, removeFold_eval wid t.w.newDepIds t.w.deps.reverse t.subs
    (by simpa using hnd) x]
  simp [List.mem_reverse]

/-- C1: at the end of every evaluation via `get()` the watcher's active
dependency set (`deps`/`depIds`) equals exactly the deps whose `depend()`
ran during that evaluation: deps of the previous cycle that were not
re-read have the watcher removed from their subscriber list, newly read
deps have it added exactly once, and the invariant is re-established for
the next cycle.  Consequently, for a getter `cond ? a : b` (dep ids
`cond = 10`, `a = 11`, `b = 12`) whose previous evaluation read `cond`
and `b` and whose current evaluation has `cond` true (reads `cond` and
`a`), a write to `b` notifies watcher 1 zero times and a write to `a`
notifies it exactly once. -/
theorem watcher_dependency_precision (wid : Nat) (reads : List Nat)
    (s : TrackSt) (h : WfTrack wid s) :
    (∀ d, d ∈ (evalRun wid reads s).w.depIds ↔ d ∈ reads) ∧
    (∀ d, ((evalRun wid reads s).subs d).count wid =
      if d ∈ reads then 1 else 0) ∧
    WfTrack wid (evalRun wid reads s) ∧
    (depNotify true
      ((evalRun 1 [10, 11] (evalRun 1 [10, 12] freshTrack)).subs 12)).count 1
      = 0 ∧
    (depNotify true
      ((evalRun 1 [10, 11] (evalRun 1 [10, 12] freshTrack)).subs 11)).count 1
      = 1 := by
  obtain ⟨hnd0, hni0, hde, hnodup, hcnt⟩ := h
  obtain ⟨f1, f2, f3, f4, f5, f6⟩ :=
    addDep_fold wid reads s []
      (fun x => by simp [hni0])
      (by rw [hni0]; exact List.nodup_nil)
      (by rw [hnd0, hni0])
      (fun x => by rw [hcnt x]; simp)
  have hdeps_nd : (reads.foldl (addDep wid) s).w.deps.Nodup := by
    rw [f2, hde]; exact hnodup
  have hmem1 : ∀ d, d ∈ (evalRun wid reads s).w.depIds ↔ d ∈ reads := by
    intro d
    unfold evalRun
    have hids : (cleanupDeps wid (reads.foldl (addDep wid) s)).w.depIds
        = (reads.foldl (addDep wid) s).w.newDepIds := rfl
    rw [hids, f3 d]
    simp
  have hc2 : ∀ d, ((evalRun wid reads s).subs d).count wid =
      if d ∈ reads then 1 else 0 := by
    intro d
    unfold evalRun
    rw [cleanupDeps_subs wid (reads.foldl (addDep wid) s) hdeps_nd d]
    by_cases hd : d ∈ reads
    · have hdn : d ∈ (reads.foldl (addDep wid) s).w.newDepIds :=
        (f3 d).mpr (Or.inr hd)
      rw [if_neg (by rintro ⟨_, hno⟩; exact hno hdn), f6 d,
        if_pos (Or.inr (Or.inr hd)), if_pos hd]
    · have hdn : d ∉ (reads.foldl (addDep wid) s).w.newDepIds := by
        intro hc
        rcases (f3 d).mp hc with hh | hh
        · exact absurd hh (List.not_mem_nil d)
        · exact hd hh
      by_cases hdd : d ∈ (reads.foldl (addDep wid) s).w.deps
      · have hsdep : d ∈ s.w.depIds := by
          rw [← hde, ← f2]; exact hdd
        rw [if_pos ⟨hdd, hdn⟩, List.count_erase_self, f6 d,
          if_pos (Or.inl hsdep), if_neg hd]
      · have hsdep : d ∉ s.w.depIds := by
          rw [← hde, ← f2]; exact hdd
        rw [if_neg (by rintro ⟨hh, _⟩; exact hdd hh), f6 d,
          if_neg (by
            rintro (hh | hh | hh)
            · exact hsdep hh
            · exact absurd hh (List.not_mem_nil d)
            · exact hd hh),
          if_neg hd]
  refine ⟨hmem1, hc2, ⟨rfl, rfl, f5, f4, ?_⟩, by decide, by decide⟩
  intro d
  rw [hc2 d]
  by_cases hd : d ∈ reads
  · rw [if_pos hd, if_pos ((hmem1 d).mpr hd)]
  · rw [if_neg hd, if_neg (fun hc => hd ((hmem1 d).mp hc))]

/-- Witness for `watcher_dependency_precision`: a fresh watcher satisfies
the invariant, and an evaluation reading deps 10 and 11 leaves it
subscribed to dep 11 exactly once. -/
theorem watcher_dependency_precision_witness :
    WfTrack 1 freshTrack ∧
    ((evalRun 1 [10, 11] freshTrack).subs 11).count 1 =
      (if (11 : Nat) ∈ [10, 11] then 1 else 0) :=
  ⟨⟨rfl, rfl, rfl, List.nodup_nil, fun d => by simp [freshTrack]⟩,
   (watcher_dependency_precision 1 [10, 11] freshTrack
      ⟨rfl, rfl, rfl, List.nodup_nil, fun d => by simp [freshTrack]⟩).2.1 11⟩

/-- `queueWatcher` on an id already flagged pending changes nothing. -/
theorem qwPendingNoop (s : SchedSt) (w : Nat) (h : s.hasQ w = true) :
    queueWatcherM s w = s := by
  simp [queueWatcherM, h]

/-- Any further `queueWatcher` calls for an id already flagged pending
change nothing. -/
theorem qwPendingFoldNoop (k w : Nat) (s : SchedSt) (h : s.hasQ w = true) :
    (List.replicate k w).foldl queueWatcherM s = s := by
  induction k with
  | zero => rfl
  | succ k ih =>
    simp only [List.replicate_succ, List.foldl_cons, qwPendingNoop s w h]
    exact ih

/-- `n ≥ 1` writes that each notify the same watcher leave the scheduler
exactly as one write does: the watcher queued once. -/
theorem qwReplicateCollapse (n w : Nat) (hn : 1 ≤ n) :
    (List.replicate n w).foldl queueWatcherM idleSched =
      queueWatcherM idleSched w := by
  cases n with
  | zero => omega
  | succ k =>
    simp only [List.replicate_succ, List.foldl_cons]
    exact qwPendingFoldNoop k w (queueWatcherM idleSched w) (by simp [queueWatcherM, idleSched])

/-- Flushing a queue holding a single watcher whose run queues nothing
runs that watcher exactly once, with fuel left over. -/
theorem singleFlushRuns (w : Nat) :
    (flushSchedulerQueue (fun _ => []) 2 (queueWatcherM idleSched w)).runs = [w] ∧
    (flushSchedulerQueue (fun _ => []) 2 (queueWatcherM idleSched w)).fuelOut = false := by
  simp [flushSchedulerQueue, flushLoop, queueWatcherM, idleSched, devMode]

/-- C3: for a reactive property installed by `defineReactive`, assigning a
value that is strictly equal (`===`) to the current value, or assigning
NaN over NaN, leaves the stored value unchanged and calls `dep.notify()`
zero times, so no subscriber receives `update()`. -/
theorem reactiveSetter_idempotent_write (async : Bool) (subs : List Nat)
    (val newVal : SVal)
    (h : strictEq newVal val = true ∨ (newVal = SVal.vnan ∧ val = SVal.vnan)) :
    reactiveSetter val newVal = (val, false) ∧
    setterNotifications async subs val newVal = [] := by
  have hcond : (strictEq newVal val ∨
      (¬ strictEq newVal newVal ∧ ¬ strictEq val val)) := by
    rcases h with h | ⟨h1, h2⟩
    · exact Or.inl h
    · subst h1; subst h2
      refine Or.inr ⟨?_, ?_⟩ <;> simp [strictEq]
  have hset : reactiveSetter val newVal = (val, false) := by
    show (if strictEq newVal val ∨ (¬ strictEq newVal newVal ∧ ¬ strictEq val val)
      then (val, false) else (newVal, true)) = (val, false)
    exact if_pos hcond
  exact ⟨hset, by simp [setterNotifications, hset]⟩

/-- Witness for `reactiveSetter_idempotent_write` at a concrete input:
re-assigning the integer `3` to a property storing `3`, with two
subscribers. -/
theorem reactiveSetter_idempotent_write_witness :
    (strictEq (SVal.vint 3) (SVal.vint 3) = true ∨
      (SVal.vint 3 = SVal.vnan ∧ SVal.vint 3 = SVal.vnan)) ∧
    reactiveSetter (SVal.vint 3) (SVal.vint 3) = (SVal.vint 3, false) ∧
    setterNotifications true [1, 2] (SVal.vint 3) (SVal.vint 3) = [] :=
  ⟨Or.inl (by decide),
   (reactiveSetter_idempotent_write true [1, 2] (SVal.vint 3) (SVal.vint 3)
      (Or.inl (by decide))).1,
   (reactiveSetter_idempotent_write true [1, 2] (SVal.vint 3) (SVal.vint 3)
      (Or.inl (by decide))).2⟩

/-- C5: each of the seven patched array methods returns exactly the
corresponding original `Array.prototype` result and leaves the elements as
the original leaves them, passes to `observeArray` exactly the newly
inserted elements (the arguments for `push`/`unshift`, the arguments after
the first two for `splice`, nothing for the other four), and calls
`ob.dep.notify()` exactly once. -/
theorem arrayMethods_contract {α : Type} (s : ObSt α) (args items : List α)
    (start delCnt : Int) (sortFn : List α → List α) :
    ((pushM s args).1.elems = (origPush s.elems args).1 ∧
      (pushM s args).2 = (origPush s.elems args).2 ∧
      (pushM s args).1.observedLog = s.observedLog ++ args ∧
      (pushM s args).1.notifies = s.notifies + 1) ∧
    ((popM s).1.elems = (origPop s.elems).1 ∧
      (popM s).2 = (origPop s.elems).2 ∧
      (popM s).1.observedLog = s.observedLog ∧
      (popM s).1.notifies = s.notifies + 1) ∧
    ((shiftM s).1.elems = (origShift s.elems).1 ∧
      (shiftM s).2 = (origShift s.elems).2 ∧
      (shiftM s).1.observedLog = s.observedLog ∧
      (shiftM s).1.notifies = s.notifies + 1) ∧
    ((unshiftM s args).1.elems = (origUnshift s.elems args).1 ∧
      (unshiftM s args).2 = (origUnshift s.elems args).2 ∧
      (unshiftM s args).1.observedLog = s.observedLog ++ args ∧
      (unshiftM s args).1.notifies = s.notifies + 1) ∧
    ((spliceM s start delCnt items).1.elems =
        (origSplice s.elems start delCnt items).1 ∧
      (spliceM s start delCnt items).2 =
        (origSplice s.elems start delCnt items).2 ∧
      (spliceM s start delCnt items).1.observedLog = s.observedLog ++ items ∧
      (spliceM s start delCnt items).1.notifies = s.notifies + 1) ∧
    ((sortM s sortFn).1.elems = (origSort sortFn s.elems).1 ∧
      (sortM s sortFn).2 = (origSort sortFn s.elems).2 ∧
      (sortM s sortFn).1.observedLog = s.observedLog ∧
      (sortM s sortFn).1.notifies = s.notifies + 1) ∧
    ((reverseM s).1.elems = (origReverse s.elems).1 ∧
      (reverseM s).2 = (origReverse s.elems).2 ∧
      (reverseM s).1.observedLog = s.observedLog ∧
      (reverseM s).1.notifies = s.notifies + 1) :=
  ⟨⟨rfl, rfl, rfl, rfl⟩, ⟨rfl, rfl, rfl, rfl⟩, ⟨rfl, rfl, rfl, rfl⟩,
   ⟨rfl, rfl, rfl, rfl⟩, ⟨rfl, rfl, rfl, rfl⟩, ⟨rfl, rfl, rfl, rfl⟩,
   ⟨rfl, rfl, rfl, rfl⟩⟩

/-- C8: with `config.async` false (development build), `Dep.notify`
invokes `update()` on a snapshot of the subscriber list in ascending
watcher-id order (a sorted permutation of `subs`); otherwise subscribers
are notified in subscription (insertion) order. -/
theorem depNotify_order_contract (subs : List Nat) :
    (depNotify false subs).Sorted (· ≤ ·) ∧
    (depNotify false subs).Perm subs ∧
    depNotify true subs = subs := by
  refine ⟨?_, ?_, ?_⟩
  · simp only [depNotify, devMode]
    exact List.sorted_insertionSort (fun a b : Nat => a ≤ b) subs
  · simpa [depNotify, devMode] using
      List.perm_insertionSort (fun a b : Nat => a ≤ b) subs
  · simp [depNotify, devMode]

/-- C6: `Watcher.prototype.get()` uses scoped acquisition: on every exit
path — the getter returning normally or throwing — the target stack is
restored to what it was before the call and `cleanupDeps` has run (the
pending dependency containers end empty); a throwing getter of a user
watcher is routed to `handleError` and the evaluation yields `undefined`,
while a non-user watcher's exception propagates to the caller. -/
theorem watcherGet_scoped_acquisition (wid : Nat) (user : Bool)
    (reads : List Nat) (outcome : Except Nat SVal) (ctx : RunCtx) :
    (watcherGet wid user reads outcome ctx).2.stack = ctx.stack ∧
    (watcherGet wid user reads outcome ctx).2.track.w.newDeps = [] ∧
    (watcherGet wid user reads outcome ctx).2.track.w.newDepIds = [] ∧
    (watcherGet wid user reads outcome ctx).1 =
      (match outcome with
       | Except.ok v => Except.ok v
       | Except.error _ =>
         if user then Except.ok SVal.undef else outcome) ∧
    (watcherGet wid user reads outcome ctx).2.handled =
      ctx.handled ++
      (match outcome with
       | Except.ok _ => []
       | Except.error e => if user then [e] else []) := by
  cases outcome <;> cases user <;>
    simp [watcherGet, cleanupDeps, pushTarget, popTarget]

/-- C7: `observe` is idempotent — a value already carrying an own `__ob__`
`Observer` gets that observer back unchanged, and a second `observe` of
any successfully observed value returns the same observer without
restamping — and returns `undefined`, wrapping nothing, for non-objects,
VNode instances, objects of other kinds, non-extensible objects and
`_isVue`-marked objects (the latter three when not already observed). -/
theorem observe_idempotent_and_skips (so ssr : Bool) (n m i : Nat)
    (o : RawObject) (v : JsValue) :
    (o.kind ≠ ObjKind.vnodeK → o.obField = ObField.observerF i →
      observeM so ssr n (JsValue.objV o) = (some i, JsValue.objV o)) ∧
    (∀ j, (observeM so ssr n v).1 = some j →
      observeM so ssr m (observeM so ssr n v).2 =
        (some j, (observeM so ssr n v).2)) ∧
    observeM so ssr n JsValue.primV = (none, JsValue.primV) ∧
    (o.kind = ObjKind.vnodeK →
      observeM so ssr n (JsValue.objV o) = (none, JsValue.objV o)) ∧
    ((∀ k, o.obField ≠ ObField.observerF k) →
      (o.kind = ObjKind.otherK ∨ o.extensible = false ∨ o.isVue = true) →
      observeM so ssr n (JsValue.objV o) = (none, JsValue.objV o)) := by
  obtain ⟨k, ob, ext, vue⟩ := o
  refine ⟨?_, ?_, ?_, ?_, ?_⟩
  · intro hk hob
    cases hob
    cases k <;> simp_all [observeM]
  · intro j hj
    cases v with
    | primV => simp [observeM] at hj
    | objV o =>
      obtain ⟨k2, ob2, ext2, vue2⟩ := o
      cases k2 <;> cases ob2 <;>
        simp only [observeM, reduceCtorEq, if_true, if_false] <;>
        simp_all [observeM] <;>
      · split at hj
        · rename_i hc
          simp only [Option.some.injEq] at hj
          subst hj
          simp_all [observeM]
        · simp at hj
  · rfl
  · intro hk
    cases hk
    simp [observeM]
  · intro hob hskip
    cases k <;> cases ob <;> simp_all [observeM]
    · rcases hskip with h | h | h <;> simp_all
    · rcases hskip with h | h | h <;> simp_all
    · rcases hskip with h | h | h <;> simp_all
    · rcases hskip with h | h | h <;> simp_all

set_option maxRecDepth 10000 in
/-- C2 (counterexample to the claim as stated): a watcher whose `run()`
re-triggers its own dependency is re-queued after `has[id]` was cleared,
re-inserted behind the cursor, and executed again — within the single
flush starting from queue `[1]` its `run()` executes 101 times, not at
most once.  (`fuelOut = false`: the modelling fuel did not cut the loop;
it ended by the `break`.) -/
theorem scheduler_second_run_in_one_flush :
    ((flushSchedulerQueue (fun w => [w]) 150 (queueWatcherM idleSched 1)).runs.count 1
        = 101) ∧
    (flushSchedulerQueue (fun w => [w]) 150 (queueWatcherM idleSched 1)).warned = true ∧
    (flushSchedulerQueue (fun w => [w]) 150 (queueWatcherM idleSched 1)).fuelOut = false := by
  decide

/-- C2 (amended): `queueWatcher` refuses to enqueue a watcher whose id is
flagged pending; N ≥ 1 writes to dependencies of one watcher within one
turn queue it exactly once and — provided its run re-triggers nothing —
the ensuing flush executes it exactly once; and a watcher inserted ahead
of the flush cursor during an in-progress flush, not having run in that
flush, runs exactly once (watcher 3, queued by watcher 5's run).  The
blanket "at most one run() per watcher per flush" holds only under the
proviso that no run re-queues an already-run watcher
(`scheduler_second_run_in_one_flush`). -/
theorem scheduler_at_most_once_per_flush (w n : Nat) (hn : 1 ≤ n)
    (s : SchedSt) (hp : s.hasQ w = true) :
    queueWatcherM s w = s ∧
    ((List.replicate n w).foldl queueWatcherM idleSched).queue = [w] ∧
    (flushSchedulerQueue (fun _ => []) 2
        ((List.replicate n w).foldl queueWatcherM idleSched)).runs = [w] ∧
    (flushSchedulerQueue (fun _ => []) 2
        ((List.replicate n w).foldl queueWatcherM idleSched)).fuelOut = false ∧
    (flushSchedulerQueue (fun x => if x = 5 then [3] else []) 3
        (queueWatcherM idleSched 5)).runs = [5, 3] ∧
    (flushSchedulerQueue (fun x => if x = 5 then [3] else []) 3
        (queueWatcherM idleSched 5)).fuelOut = false := by
  rw [qwReplicateCollapse n w hn]
  refine ⟨qwPendingNoop s w hp, ?_, (singleFlushRuns w).1, (singleFlushRuns w).2, ?_, ?_⟩
  · simp [queueWatcherM, idleSched]
  · decide
  · decide

/-- Witness for `scheduler_at_most_once_per_flush`: watcher 4, two
writes, and a scheduler state in which watcher 4 is already pending. -/
theorem scheduler_at_most_once_per_flush_witness :
    1 ≤ 2 ∧ (queueWatcherM idleSched 4).hasQ 4 = true ∧
    queueWatcherM (queueWatcherM idleSched 4) 4 = queueWatcherM idleSched 4 ∧
    ((List.replicate 2 4).foldl queueWatcherM idleSched).queue = [4] ∧
    (flushSchedulerQueue (fun _ => []) 2
        ((List.replicate 2 4).foldl queueWatcherM idleSched)).runs = [4] :=
  ⟨by decide, by decide,
   (scheduler_at_most_once_per_flush 4 2 (by decide)
      (queueWatcherM idleSched 4) (by decide)).1,
   (scheduler_at_most_once_per_flush 4 2 (by decide)
      (queueWatcherM idleSched 4) (by decide)).2.1,
   (scheduler_at_most_once_per_flush 4 2 (by decide)
      (queueWatcherM idleSched 4) (by decide)).2.2.1⟩

set_option maxRecDepth 10000 in
/-- C4: a watcher whose `run()` unconditionally re-triggers its own
dependency is found re-queued after each of its runs; the development
build's `circular` counter reaches `MAX_UPDATE_COUNT + 1 = 101`, the
loop breaks with the infinite-update warning, and the watcher was
executed exactly `1 + MAX_UPDATE_COUNT` times — the initial run plus
exactly 100 re-entries — within the single flush. -/
theorem scheduler_cycle_guard :
    (flushSchedulerQueue (fun w => [w]) 150 (queueWatcherM idleSched 2)).runs =
      List.replicate (MAX_UPDATE_COUNT + 1) 2 ∧
    (flushSchedulerQueue (fun w => [w]) 150 (queueWatcherM idleSched 2)).warned = true ∧
    (flushSchedulerQueue (fun w => [w]) 150 (queueWatcherM idleSched 2)).fuelOut = false ∧
    (flushSchedulerQueue (fun w => [w]) 150 (queueWatcherM idleSched 2)).circular 2 =
      MAX_UPDATE_COUNT + 1 := by
  decide

/-- Witness for `observe_idempotent_and_skips` at concrete inputs: an
already-observed plain object returns its observer 5; observing a fresh
array then re-observing returns the same observer 7; a VNode, and a
non-extensible plain object, observe to `undefined`. -/
theorem observe_idempotent_and_skips_witness :
    observeM true false 7
        (JsValue.objV ⟨ObjKind.plainK, ObField.observerF 5, true, false⟩) =
      (some 5, JsValue.objV ⟨ObjKind.plainK, ObField.observerF 5, true, false⟩) ∧
    observeM true false 9
        (observeM true false 7
          (JsValue.objV ⟨ObjKind.arrayK, ObField.absent, true, false⟩)).2 =
      (some 7, (observeM true false 7
          (JsValue.objV ⟨ObjKind.arrayK, ObField.absent, true, false⟩)).2) ∧
    observeM true false 7
        (JsValue.objV ⟨ObjKind.vnodeK, ObField.absent, true, false⟩) =
      (none, JsValue.objV ⟨ObjKind.vnodeK, ObField.absent, true, false⟩) ∧
    observeM true false 7
        (JsValue.objV ⟨ObjKind.plainK, ObField.absent, false, false⟩) =
      (none, JsValue.objV ⟨ObjKind.plainK, ObField.absent, false, false⟩) :=
  ⟨(observe_idempotent_and_skips true false 7 9 5
      ⟨ObjKind.plainK, ObField.observerF 5, true, false⟩ JsValue.primV).1
      (by decide) rfl,
   (observe_idempotent_and_skips true false 7 9 5
      ⟨ObjKind.plainK, ObField.observerF 5, true, false⟩
      (JsValue.objV ⟨ObjKind.arrayK, ObField.absent, true, false⟩)).2.1 7
      (by decide),
   (observe_idempotent_and_skips true false 7 9 5
      ⟨ObjKind.vnodeK, ObField.absent, true, false⟩ JsValue.primV).2.2.2.1 rfl,
   (observe_idempotent_and_skips true false 7 9 5
      ⟨ObjKind.plainK, ObField.absent, false, false⟩ JsValue.primV).2.2.2.2
      (fun _ h => ObField.noConfusion h) (Or.inr (Or.inl rfl))⟩

/-- The getter closure of `pathWalk` on `undefined` stays `undefined`
for every remaining segment list. -/
theorem pathWalk_undef (l : List String) :
    pathWalk PathVal.undef l = PathVal.undef := by
  cases l <;> simp [pathWalk, isFalsy]

/-- `pathWalk` over a concatenation is the composition of walks. -/
theorem pathWalk_append (v : PathVal) (l1 l2 : List String) :
    pathWalk v (l1 ++ l2) = pathWalk (pathWalk v l1) l2 := by
  induction l1 generalizing v with
  | nil => rfl
  | cons s t ih =>
    simp only [List.cons_append, pathWalk]
    by_cases hf : isFalsy v = true
    · simp [hf, pathWalk_undef]
    · simp [hf, ih]

/-- C9: a path string containing any character outside the allowed class
makes `parsePath` return `undefined`, upon which the `Watcher` constructor
substitutes the no-op getter (with the development-mode warning), so every
evaluation returns `undefined`; an accepted path yields the getter over
the dot-separated segments, and that getter returns `undefined` as soon as
an intermediate value along the walk is `undefined`. -/
theorem parsePath_fail_closed (path : String) (v : PathVal)
    (l1 l2 : List String) :
    ((∃ c ∈ path.toList, isPathChar c = false) →
      parsePath path = none ∧
      watcherPathGetter path = (noopGetter, devMode) ∧
      ∀ u, (watcherPathGetter path).1 u = PathVal.undef) ∧
    ((∀ c ∈ path.toList, isPathChar c = true) →
      parsePath path = some (path.splitOn ".") ∧
      ∀ u, (watcherPathGetter path).1 u = pathWalk u (path.splitOn ".")) ∧
    (pathWalk v l1 = PathVal.undef →
      pathWalk v (l1 ++ l2) = PathVal.undef) := by
  refine ⟨?_, ?_, ?_⟩
  · intro h
    have hb : (path.toList.any fun c => ! isPathChar c) = true := by
      rcases h with ⟨c, hc, hnc⟩
      exact List.any_eq_true.mpr ⟨c, hc, by simp [hnc]⟩
    have hp : parsePath path = none := by
      unfold parsePath; rw [hb]; rfl
    refine ⟨hp, ?_, ?_⟩
    · simp [watcherPathGetter, hp]
    · intro u
      simp [watcherPathGetter, hp, noopGetter]
  · intro h
    have hb : (path.toList.any fun c => ! isPathChar c) = false := by
      simp only [List.any_eq_false]
      intro c hc
      simp [h c hc]
    have hp : parsePath path = some (path.splitOn ".") := by
      unfold parsePath; rw [hb]; rfl
    refine ⟨hp, ?_⟩
    intro u
    simp [watcherPathGetter, hp]
  · intro h
    rw [pathWalk_append, h, pathWalk_undef]

/-- Witness for `parsePath_fail_closed` at concrete inputs: the path
`a-b` (illegal `-`) fails closed to the no-op getter; the path `a.b` walks
its two segments; a walk whose intermediate value is `undefined` ends in
`undefined`. -/
theorem parsePath_fail_closed_witness :
    (∃ c ∈ "a-b".toList, isPathChar c = false) ∧
    parsePath "a-b" = none ∧
    (watcherPathGetter "a-b").1 (PathVal.atom true) = PathVal.undef ∧
    (∀ c ∈ "a.b".toList, isPathChar c = true) ∧
    parsePath "a.b" = some ("a.b".splitOn ".") ∧
    (watcherPathGetter "a.b").1 (PathVal.atom true) =
      pathWalk (PathVal.atom true) ("a.b".splitOn ".") ∧
    pathWalk (PathVal.pobj [("a", PathVal.undef)]) (["a"] ++ ["b"]) =
      PathVal.undef :=
  ⟨⟨'-', by decide, by decide⟩,
   ((parsePath_fail_closed "a-b" PathVal.undef [] []).1
      ⟨'-', by decide, by decide⟩).1,
   ((parsePath_fail_closed "a-b" PathVal.undef [] []).1
      ⟨'-', by decide, by decide⟩).2.2 (PathVal.atom true),
   by decide,
   ((parsePath_fail_closed "a.b" PathVal.undef [] []).2.1 (by decide)).1,
   ((parsePath_fail_closed "a.b" PathVal.undef [] []).2.1 (by decide)).2
      (PathVal.atom true),
   (parsePath_fail_closed "x"
      (PathVal.pobj [("a", PathVal.undef)]) ["a"] ["b"]).2.2 rfl⟩

/-- C10: `callHook` runs its handlers under `pushTarget()` with no
argument, so the current reader during the handlers is the explicit
"no reader" entry, every `dep.depend()` the handlers reach registers
nothing, and `popTarget()` restores the stack (hence the previously
current reader) exactly. -/
theorem callHook_runs_with_no_reader (reads : List Nat) (st : TrackSt)
    (stack : List (Option Nat)) :
    currentTarget (pushTarget none stack) = none ∧
    callHookM reads st stack = (st, stack) := by
  constructor
  · rfl
  · unfold callHookM
    simp only [pushTarget, currentTarget, popTarget, List.headD_cons,
      depDepend, List.tail_cons]
    rw [foldl_fixed_point]

end VueCore
